import Mathlib

/-!
Verification development for the benzene / neurobenzene Virtual Connection
(VC) engine, a shallow embedding of `VCBuilder.cpp`.

Cells are `Fin B` where `B` plays the role of the compile-time constant
`BITSETSIZE`; bitsets are `Finset (Fin B)`.  The builder functions
(`DoSearch`, `ProcessSemis`, `ProcessFulls`, `AndClosure`, `DoAnd`,
`MergeAndShrink`, the two OR algorithms and the two work queues) are
translated from `VCBuilder.cpp`.  The collection classes `VC`, `VCList`
and `VCSet` are not part of the sources at hand, so their operations are
modelled from the specification (sections 4.2 and 4.3); each such
definition carries a doc comment saying so.
-/

namespace VCEngine

/-- Cell state: black stone, white stone, or empty. -/
inductive HColor where
  | black
  | white
  | empty
deriving DecidableEq

/-- Connection type: `FULL` (0-connection) or `SEMI` (1-connection). -/
inductive VCType where
  | full
  | semi
deriving DecidableEq

/-- Derivation rule tags (`VC_RULE_BASE`, pattern, `VC_RULE_AND`,
`VC_RULE_OR`, `VC_RULE_ALL`). -/
inductive VCRule where
  | base
  | pat
  | andR
  | orR
  | allR
deriving DecidableEq

/-- Modelled from the spec: a VC record (endpoints, type, carrier, key for
semis, rule tag, processed flag).  `VC.cpp` itself is not among the
sources; the fields follow section 3 of the spec. -/
structure VC (B : Nat) where
  x : Fin B
  y : Fin B
  vtype : VCType
  carrier : Finset (Fin B)
  key : Option (Fin B)
  rule : VCRule
  processed : Bool
deriving DecidableEq

/-- Modelled from the spec: the VC constructor normalizes endpoints so that
`x ≤ y`; new connections start unprocessed. -/
def VC.mk' {B : Nat} (x y : Fin B) (t : VCType) (carrier : Finset (Fin B))
    (key : Option (Fin B)) (rule : VCRule) : VC B :=
  ⟨min x y, max x y, t, carrier, key, rule, false⟩

/-- Result of `VCList::Add`, from the spec section 4.2. -/
inductive AddResult where
  | addedInsideSoft
  | addedOutsideSoft
  | addFailed
deriving DecidableEq

/-- Modelled from the spec: a `VCList` is an ordered collection of VCs on a
fixed endpoint pair, ordered ascending by carrier size, with a soft-limit
section length.  `VCList.cpp` is not among the sources. -/
structure VCList (B : Nat) where
  x : Fin B
  y : Fin B
  softLimit : Nat
  entries : List (VC B)
deriving DecidableEq

/-- Modelled from the spec: `hardIntersection` is the AND of all carriers in
the list; the empty list gives the universe. -/
def VCList.hardIntersection {B : Nat} (l : VCList B) : Finset (Fin B) :=
  l.entries.foldl (fun acc v => acc ∩ v.carrier) Finset.univ

/-- Modelled from the spec: `softIntersection` is the AND of the carriers of
the first `softLimit` entries. -/
def VCList.softIntersection {B : Nat} (l : VCList B) : Finset (Fin B) :=
  (l.entries.take l.softLimit).foldl (fun acc v => acc ∩ v.carrier) Finset.univ

/-- Modelled from the spec: `VCList::Add`.  Rejects (dominated) if an
existing carrier is a subset of the new one, otherwise removes carriers
that are supersets of the new one and inserts in ascending-carrier-size
position; reports whether the insertion landed inside the soft limit. -/
def VCList.add {B : Nat} (l : VCList B) (v : VC B) : AddResult × VCList B :=
  if l.entries.any (fun e => decide (e.carrier ⊆ v.carrier)) then
    (AddResult.addFailed, l)
  else
    let pruned := l.entries.filter (fun e => decide (¬ v.carrier ⊆ e.carrier))
    let before := pruned.takeWhile (fun e => decide (e.carrier.card ≤ v.carrier.card))
    let after := pruned.drop before.length
    let res := if before.length < l.softLimit then AddResult.addedInsideSoft
               else AddResult.addedOutsideSoft
    (res, { l with entries := before ++ v :: after })

/-- Modelled from the spec: `VCList::Append` adds every entry of the other
list in order. -/
def VCList.appendList {B : Nat} (l : VCList B) (other : VCList B) : VCList B :=
  other.entries.foldl (fun acc v => (acc.add v).2) l

/-- Modelled from the spec: `VCList::RemoveAllContaining` removes every VC
whose carrier intersects the mask and returns the removed entries. -/
def VCList.removeAllContaining {B : Nat} (l : VCList B) (mask : Finset (Fin B)) :
    List (VC B) × VCList B :=
  (l.entries.filter (fun e => decide ((e.carrier ∩ mask).Nonempty)),
   { l with entries := l.entries.filter (fun e => decide (¬ (e.carrier ∩ mask).Nonempty)) })

/-- Modelled from the spec: `VCList::RemoveSuperSetsOf` removes the VCs whose
carrier is a superset of the given carrier. -/
def VCList.removeSuperSetsOf {B : Nat} (l : VCList B) (c : Finset (Fin B)) : VCList B :=
  { l with entries := l.entries.filter (fun e => decide (¬ c ⊆ e.carrier)) }

/-- Modelled from the spec: `VCList::IsSupersetOfAny`: true iff some entry's
carrier is a subset of the given carrier. -/
def VCList.isSupersetOfAny {B : Nat} (l : VCList B) (c : Finset (Fin B)) : Bool :=
  l.entries.any (fun e => decide (e.carrier ⊆ c))

/-- Modelled from the spec: `VCList::FindInList` locates a VC by endpoints
plus carrier equality. -/
def VCList.findInList {B : Nat} (l : VCList B) (v : VC B) : Option (VC B) :=
  l.entries.find? (fun e => decide (e.x = v.x ∧ e.y = v.y ∧ e.carrier = v.carrier))

/-- Modelled from the spec: mark as processed the list entry matching the
given VC by endpoints plus carrier (in-place flag update). -/
def VCList.markProcessed {B : Nat} (l : VCList B) (v : VC B) : VCList B :=
  { l with entries := l.entries.map (fun e =>
      if e.x = v.x ∧ e.y = v.y ∧ e.carrier = v.carrier then
        { e with processed := true }
      else e) }

/-- Modelled from the spec: `VCList::GetUnion` ORs all carriers. -/
def VCList.getUnion {B : Nat} (l : VCList B) : Finset (Fin B) :=
  l.entries.foldl (fun acc v => acc ∪ v.carrier) ∅

/-- Modelled from the spec: `VCList::GetGreedyUnion` unions carriers in
order, skipping any carrier that does not shrink the running
intersection. -/
def VCList.getGreedyUnion {B : Nat} (l : VCList B) : Finset (Fin B) :=
  (l.entries.foldl
    (fun acc v =>
      if acc.1 ∩ v.carrier = acc.1 then acc
      else (acc.1 ∩ v.carrier, acc.2 ∪ v.carrier))
    ((Finset.univ : Finset (Fin B)), (∅ : Finset (Fin B)))).2

/-- The least set cell of a bitset (`firstSet`, trailing-zeros probe), as an
`Option`. -/
def firstSet {B : Nat} (s : Finset (Fin B)) : Option (Fin B) :=
  s.min

/-- Ascending iteration order of a bitset's set cells (`BitsetIterator`). -/
def iterSet {B : Nat} (s : Finset (Fin B)) : List (Fin B) :=
  s.sort (fun a b => a ≤ b)

/-- `VCBuilder::SemiEndsQueue` from `VCBuilder.cpp`: a vector of endpoint
pairs with a head cursor and a seen matrix meant to keep entries unique. -/
structure SemiEndsQueue (B : Nat) where
  seen : Fin B → Fin B → Bool
  array : List (Fin B × Fin B)
  head : Nat

/-- `SemiEndsQueue::Clear`. -/
def SemiEndsQueue.clear {B : Nat} : SemiEndsQueue B :=
  ⟨fun _ _ => false, [], 0⟩

/-- `SemiEndsQueue::Empty`. -/
def SemiEndsQueue.isEmpty {B : Nat} (q : SemiEndsQueue B) : Bool :=
  decide (q.array.length ≤ q.head)

/-- `SemiEndsQueue::Front`. -/
def SemiEndsQueue.front {B : Nat} (q : SemiEndsQueue B) : Option (Fin B × Fin B) :=
  q.array.get? q.head

/-- `SemiEndsQueue::Pop`: clears the seen entry for the front pair and
advances the head cursor. -/
def SemiEndsQueue.pop {B : Nat} (q : SemiEndsQueue B) : SemiEndsQueue B :=
  match q.array.get? q.head with
  | some p =>
      { q with seen := fun i j => if i = p.1 ∧ j = p.2 then false else q.seen i j,
               head := q.head + 1 }
  | none => { q with head := q.head + 1 }

/-- `SemiEndsQueue::Push`, exactly as in the source: the pair is normalized
to `(a, b)` with `a = min`, `b = max`; if `m_seen[a][b]` is not set, the
pair is appended and the code marks `m_seen[a][a]` (sic). -/
def SemiEndsQueue.push {B : Nat} (q : SemiEndsQueue B) (p : Fin B × Fin B) :
    SemiEndsQueue B :=
  let a := min p.1 p.2
  let b := max p.1 p.2
  if q.seen a b then q
  else
    { q with seen := fun i j => if i = a ∧ j = a then true else q.seen i j,
             array := q.array ++ [(a, b)] }

/-- `VCBuilder::FullVCQueue` from `VCBuilder.cpp`. -/
structure FullVCQueue (B : Nat) where
  array : List (VC B)
  head : Nat

/-- `FullVCQueue::Clear`. -/
def FullVCQueue.clear {B : Nat} : FullVCQueue B := ⟨[], 0⟩

/-- `FullVCQueue::Empty`. -/
def FullVCQueue.isEmpty {B : Nat} (q : FullVCQueue B) : Bool :=
  decide (q.array.length ≤ q.head)

/-- `FullVCQueue::Front`. -/
def FullVCQueue.front {B : Nat} (q : FullVCQueue B) : Option (VC B) :=
  q.array.get? q.head

/-- `FullVCQueue::Pop`. -/
def FullVCQueue.pop {B : Nat} (q : FullVCQueue B) : FullVCQueue B :=
  { q with head := q.head + 1 }

/-- `FullVCQueue::Push`. -/
def FullVCQueue.push {B : Nat} (q : FullVCQueue B) (vc : VC B) : FullVCQueue B :=
  { q with array := q.array ++ [vc] }

/-- `VCBuilder::ComputeCapturedSets`: every cell's captured set is first
cleared, and only cells whose colour is `EMPTY` receive the moves of the
(at most one) captured-set pattern hit.  `matchHits` abstracts
`PatternState::MatchOnCell`, which lives outside the VC engine. -/
def computeCapturedSets {B : Nat} (brdColor : Fin B → HColor)
    (matchHits : Fin B → Finset (Fin B)) : Fin B → Finset (Fin B) :=
  fun p => if brdColor p = HColor.empty then matchHits p else ∅

/-- The entry assertion of the incremental `VCBuilder::Build`:
`BenzeneAssert((added[BLACK] & added[WHITE]).none())`.  `none` models the
assertion firing (the call is rejected, not an error state). -/
def buildIncrementalGuard {B : Nat} (addedBlack addedWhite : Finset (Fin B)) :
    Option Unit :=
  if (addedBlack ∩ addedWhite).Nonempty then none else some ()

/-- The `AndRule` enum of `VCBuilder`. -/
inductive AndRule where
  | createFull
  | createSemi
deriving DecidableEq

/-- One attempted connection inside `DoAnd`: which of `AddNewFull` /
`AddNewSemi` is called, and with which VC. -/
structure AndAttempt (B : Nat) where
  kind : AndRule
  vc : VC B
deriving DecidableEq

/-- Modelled from the spec: `VC::AndVCs(x, y, a, b)` builds the AND-rule
Full with carrier `a.carrier ∪ b.carrier` (spec section 4.4; `VC.cpp` is
not among the sources). -/
def VC.andVCsFull {B : Nat} (x y : Fin B) (a b : VC B) : VC B :=
  VC.mk' x y VCType.full (a.carrier ∪ b.carrier) none VCRule.andR

/-- Modelled from the spec: `VC::AndVCs(x, y, a, b, capturedSet)` widens the
AND-rule Full's carrier by the combined captured set. -/
def VC.andVCsFullCap {B : Nat} (x y : Fin B) (a b : VC B)
    (capSet : Finset (Fin B)) : VC B :=
  VC.mk' x y VCType.full (a.carrier ∪ b.carrier ∪ capSet) none VCRule.andR

/-- Modelled from the spec: `VC::AndVCs(x, y, a, b, key)` builds the
AND-rule Semi with carrier `a.carrier ∪ b.carrier ∪ {key}` and that key. -/
def VC.andVCsSemi {B : Nat} (x y : Fin B) (a b : VC B) (key : Fin B) : VC B :=
  VC.mk' x y VCType.semi (a.carrier ∪ b.carrier ∪ {key}) (some key) VCRule.andR

/-- Modelled from the spec: `VC::AndVCs(x, y, a, b, capturedSet, key)` is
the captured-set-widened AND-rule Semi. -/
def VC.andVCsSemiCap {B : Nat} (x y : Fin B) (a b : VC B)
    (capSet : Finset (Fin B)) (key : Fin B) : VC B :=
  VC.mk' x y VCType.semi (a.carrier ∪ b.carrier ∪ capSet ∪ {key}) (some key) VCRule.andR

/-- The rule dispatch of `VCBuilder::AndClosure`: an `EMPTY` shared endpoint
selects `CREATE_SEMI`, an occupied one `CREATE_FULL`. -/
def andRuleFor (c : HColor) : AndRule :=
  if c = HColor.empty then AndRule.createSemi else AndRule.createFull

/-- The body of the `VCBuilder::DoAnd` loop for a single entry `a` of the
old full list: entry skipped unless processed and `to ∉ a.carrier`; then
the four emission branches of the source, in order — empty intersection,
raw-singleton Semi fallback (`CREATE_FULL` only), captured-subset widening,
and singleton-after-captured Semi fallback (`CREATE_FULL` only). -/
def doAndEntry {B : Nat} (zfrom over fto : Fin B) (rule : AndRule) (vc : VC B)
    (capSet : Finset (Fin B)) (a : VC B) : List (AndAttempt B) :=
  if a.processed = false then []
  else if fto ∈ a.carrier then []
  else
    let inter := a.carrier ∩ vc.carrier
    if inter = ∅ then
      match rule with
      | AndRule.createFull => [⟨AndRule.createFull, VC.andVCsFull zfrom fto a vc⟩]
      | AndRule.createSemi => [⟨AndRule.createSemi, VC.andVCsSemi zfrom fto a vc over⟩]
    else
      let part1 : List (AndAttempt B) :=
        if rule = AndRule.createFull ∧ inter.card = 1 then
          match firstSet inter with
          | some k => [⟨AndRule.createSemi, VC.andVCsSemi zfrom fto a vc k⟩]
          | none => []
        else []
      let part2 : List (AndAttempt B) :=
        if inter ⊆ capSet then
          match rule with
          | AndRule.createFull => [⟨AndRule.createFull, VC.andVCsFullCap zfrom fto a vc capSet⟩]
          | AndRule.createSemi => [⟨AndRule.createSemi, VC.andVCsSemiCap zfrom fto a vc capSet over⟩]
        else
          if rule = AndRule.createFull ∧ (inter \ capSet).card = 1 then
            match firstSet (inter \ capSet) with
            | some k => [⟨AndRule.createSemi, VC.andVCsSemiCap zfrom fto a vc capSet k⟩]
            | none => []
          else []
      part1 ++ part2

/-- The counters of `VCBuilderStatistics` touched by the embedded
functions. -/
structure Stats where
  doOrs : Nat
  goodOrs : Nat
  orAttempts : Nat
  orSuccesses : Nat
  andFullAttempts : Nat
  andFullSuccesses : Nat
  andSemiAttempts : Nat
  andSemiSuccesses : Nat
  shrunk0 : Nat
  shrunk1 : Nat
  upgraded : Nat
  killed0 : Nat
  killed1 : Nat
deriving DecidableEq

/-- All-zero statistics. -/
def Stats.zero : Stats := ⟨0, 0, 0, 0, 0, 0, 0, 0, 0, 0, 0, 0, 0⟩

/-- Modelled from the spec: the `VCSet` keeps one Full list and one Semi
list per unordered endpoint pair (`VCSet.cpp` is not among the sources);
lists are keyed by the normalized pair. -/
structure VCSet (B : Nat) where
  fullLists : Fin B → Fin B → VCList B
  semiLists : Fin B → Fin B → VCList B

/-- Modelled from the spec: `VCSet::GetList`. -/
def VCSet.getList {B : Nat} (s : VCSet B) (t : VCType) (x y : Fin B) : VCList B :=
  match t with
  | VCType.full => s.fullLists (min x y) (max x y)
  | VCType.semi => s.semiLists (min x y) (max x y)

/-- Store back the list for a type and normalized endpoint pair. -/
def VCSet.setList {B : Nat} (s : VCSet B) (t : VCType) (x y : Fin B)
    (l : VCList B) : VCSet B :=
  match t with
  | VCType.full =>
      { s with fullLists := fun i j =>
          if i = min x y ∧ j = max x y then l else s.fullLists i j }
  | VCType.semi =>
      { s with semiLists := fun i j =>
          if i = min x y ∧ j = max x y then l else s.semiLists i j }

/-- Modelled from the spec: `VCSet::Add` adds a VC to the list of its type
and endpoints. -/
def VCSet.add {B : Nat} (s : VCSet B) (vc : VC B) : AddResult × VCSet B :=
  let l := s.getList vc.vtype vc.x vc.y
  let (r, l') := l.add vc
  (r, s.setList vc.vtype vc.x vc.y l')

/-- Modelled from the spec: `VCSet::Exists` checks whether some connection
of the given type joins the endpoint pair. -/
def VCSet.existsConn {B : Nat} (s : VCSet B) (x y : Fin B) (t : VCType) : Bool :=
  decide ((s.getList t x y).entries ≠ [])

/-- The `VCBuilderParam` options relevant to the search. -/
structure BuilderParam where
  maxOrs : Nat
  andOverEdge : Bool
  useGreedyUnion : Bool
  abortOnWinningConnection : Bool
deriving DecidableEq

/-- The read-only context of one build: parameters, the captured sets
computed before the search, the groups' captain map, the board colours
(relative names: `black`/`white` are absolute, the builder's own colour is
`ownColor`), the edge predicate and the builder colour's two edges. -/
structure BuilderEnv (B : Nat) where
  param : BuilderParam
  capturedSet : Fin B → Finset (Fin B)
  captainOf : Fin B → Fin B
  cellColor : Fin B → HColor
  ownColor : HColor
  isEdge : Fin B → Bool
  edge1 : Fin B
  edge2 : Fin B

/-- The mutable state of one build: the `VCSet`, the two work queues, the
neighbour table `m_nbs` and the statistics. -/
structure BuilderState (B : Nat) where
  con : VCSet B
  fullsQueue : FullVCQueue B
  semisQueue : SemiEndsQueue B
  nbs : Fin B → Finset (Fin B)
  stats : Stats

/-- `VCBuilder::PushFull`: queue the full and record both captains in the
neighbour table. -/
def pushFullB {B : Nat} (env : BuilderEnv B) (st : BuilderState B)
    (vc : VC B) : BuilderState B :=
  let cx := env.captainOf vc.x
  let cy := env.captainOf vc.y
  { st with fullsQueue := st.fullsQueue.push vc,
            nbs := fun p =>
              if p = cx then insert cy (st.nbs p)
              else if p = cy then insert cx (st.nbs p)
              else st.nbs p }

/-- `VCBuilder::AddNewFull`: add through the `VCSet`; on success remove
dominated semis between the same endpoints and push the full. -/
def addNewFull {B : Nat} (env : BuilderEnv B) (st : BuilderState B)
    (vc : VC B) : Bool × BuilderState B :=
  let (r, con') := st.con.add vc
  if r = AddResult.addFailed then (false, st)
  else
    let semisL := (con'.getList VCType.semi vc.x vc.y).removeSuperSetsOf vc.carrier
    let con'' := con'.setList VCType.semi vc.x vc.y semisL
    (true, pushFullB env { st with con := con'' } vc)

/-- `VCBuilder::AddNewSemi`: rejected when a full between the endpoints has
a carrier inside the semi's; on success the endpoint pair goes onto the
semis queue. -/
def addNewSemi {B : Nat} (st : BuilderState B) (vc : VC B) :
    Bool × BuilderState B :=
  let outFull := st.con.getList VCType.full vc.x vc.y
  if outFull.isSupersetOfAny vc.carrier then (false, st)
  else
    let (r, con') := st.con.add vc
    if r = AddResult.addFailed then (false, st)
    else
      (true, { st with con := con',
                       semisQueue := st.semisQueue.push (vc.x, vc.y) })

/-- Apply one `DoAnd` emission: bump the attempt counter, call
`AddNewFull` / `AddNewSemi`, bump the success counter on success. -/
def applyAttempt {B : Nat} (env : BuilderEnv B) (st : BuilderState B)
    (att : AndAttempt B) : BuilderState B :=
  match att.kind with
  | AndRule.createFull =>
      let st1 := { st with stats :=
        { st.stats with andFullAttempts := st.stats.andFullAttempts + 1 } }
      let p := addNewFull env st1 att.vc
      if p.1 then
        { p.2 with stats :=
          { p.2.stats with andFullSuccesses := p.2.stats.andFullSuccesses + 1 } }
      else p.2
  | AndRule.createSemi =>
      let st1 := { st with stats :=
        { st.stats with andSemiAttempts := st.stats.andSemiAttempts + 1 } }
      let p := addNewSemi st1 att.vc
      if p.1 then
        { p.2 with stats :=
          { p.2.stats with andSemiSuccesses := p.2.stats.andSemiSuccesses + 1 } }
      else p.2

/-- `VCBuilder::DoAnd`: compare `vc` against the soft-limit section of the
old full list, applying the emissions of each processed entry. -/
def doAnd {B : Nat} (env : BuilderEnv B) (zfrom over fto : Fin B)
    (rule : AndRule) (vc : VC B) (capSet : Finset (Fin B)) (old : VCList B)
    (st : BuilderState B) : BuilderState B :=
  if old.entries = [] then st
  else
    (old.entries.take old.softLimit).foldl
      (fun s a => (doAndEntry zfrom over fto rule vc capSet a).foldl
        (applyAttempt env) s) st

/-- One endpoint leg of `VCBuilder::AndClosure`: skipped for an edge
endpoint unless `and_over_edge`; iterates the neighbour bitset of that
endpoint, applying the guards and the soft-intersection pruning of the
source before `DoAnd`. -/
def andClosureLeg {B : Nat} (env : BuilderEnv B) (vc : VC B) (p0 p1 : Fin B)
    (vcCap : Finset (Fin B)) (pi pj : Fin B) (st : BuilderState B) :
    BuilderState B :=
  if env.param.andOverEdge || !(env.isEdge pi) then
    (iterSet (st.nbs pi)).foldl (fun s z =>
      if z = p0 ∨ z = p1 then s
      else if z ∈ vc.carrier then s
      else
        let capSet := vcCap ∪ env.capturedSet z
        let fullsL := s.con.getList VCType.full z pi
        if ((fullsL.softIntersection ∩ vc.carrier) ∩ capSetᶜ).Nonempty then s
        else
          doAnd env z pi pj (andRuleFor (env.cellColor pi)) vc capSet fullsL s)
      st
  else st

/-- `VCBuilder::AndClosure`: run both endpoint legs over the captains of
the full's endpoints. -/
def andClosure {B : Nat} (env : BuilderEnv B) (st : BuilderState B)
    (vc : VC B) : BuilderState B :=
  let p0 := env.captainOf vc.x
  let p1 := env.captainOf vc.y
  let vcCap := env.capturedSet p0 ∪ env.capturedSet p1
  andClosureLeg env vc p0 p1 vcCap p1 p0
    (andClosureLeg env vc p0 p1 vcCap p0 p1 st)

/-- `VCBuilder::ProcessFulls`: locate the popped full in its list; if
still present and unprocessed, run the AND-closure and mark it
processed. -/
def processFulls {B : Nat} (env : BuilderEnv B) (st : BuilderState B)
    (vc : VC B) : BuilderState B :=
  let fulls := st.con.getList VCType.full vc.x vc.y
  match fulls.findInList vc with
  | none => st
  | some cur =>
      if cur.processed then st
      else
        let st1 := andClosure env st cur
        let l := st1.con.getList VCType.full vc.x vc.y
        let con' := st1.con.setList VCType.full vc.x vc.y (l.markProcessed cur)
        { st1 with con := con' }

/-- Modelled from the spec: `VC::ShrinkFull` re-endpoints a removed full
and removes the newly played own stones from its carrier. -/
def VC.shrinkFull {B : Nat} (vc : VC B) (added : Finset (Fin B))
    (x' y' : Fin B) : VC B :=
  VC.mk' x' y' VCType.full (vc.carrier \ added) none vc.rule

/-- Modelled from the spec: `VC::ShrinkSemi`, key preserved. -/
def VC.shrinkSemi {B : Nat} (vc : VC B) (added : Finset (Fin B))
    (x' y' : Fin B) : VC B :=
  VC.mk' x' y' VCType.semi (vc.carrier \ added) vc.key vc.rule

/-- Modelled from the spec: `VC::UpgradeSemi`, valid when the semi's key is
among the added stones; the result is a Full with carrier
`vc.carrier − added`. -/
def VC.upgradeSemi {B : Nat} (vc : VC B) (added : Finset (Fin B))
    (x' y' : Fin B) : VC B :=
  VC.mk' x' y' VCType.full (vc.carrier \ added) none vc.rule

/-- Whether a VC's key was just played (`added.test(it->Key())`). -/
def keyInAdded {B : Nat} (vc : VC B) (added : Finset (Fin B)) : Bool :=
  match vc.key with
  | some k => decide (k ∈ added)
  | none => false

/-- The upgrade pass of `VCBuilder::MergeAndShrink` for one removed semi:
if the key was played, upgrade to a full and add it to the out full list;
on success remove carrier-supersets from the out semi list, bump
`upgraded`, and push the new full. -/
def upgradeStep {B : Nat} (env : BuilderEnv B) (added : Finset (Fin B))
    (xout yout : Fin B) (st : BuilderState B) (s : VC B) : BuilderState B :=
  if keyInAdded s added then
    let v := VC.upgradeSemi s added xout yout
    let fullsOut := st.con.getList VCType.full xout yout
    let r := fullsOut.add v
    if r.1 = AddResult.addFailed then st
    else
      let con1 := st.con.setList VCType.full xout yout r.2
      let semisOut := (con1.getList VCType.semi xout yout).removeSuperSetsOf v.carrier
      let con2 := con1.setList VCType.semi xout yout semisOut
      pushFullB env
        { st with con := con2,
                  stats := { st.stats with upgraded := st.stats.upgraded + 1 } } v
  else st

/-- `VCBuilder::MergeAndShrink(added, xin, yin, xout, yout)`: remove and
re-add (shrunken) fulls, append surviving lists when merging, shrink or
upgrade the removed semis, queueing as in the source. -/
def mergeAndShrink {B : Nat} (env : BuilderEnv B) (added : Finset (Fin B))
    (xin yin xout yout : Fin B) (st : BuilderState B) : BuilderState B :=
  let doingMerge :=
    (min xin yin, max xin yin) ≠ (min xout yout, max xout yout)
  let fullsIn := st.con.getList VCType.full xin yin
  let remF := fullsIn.removeAllContaining added
  let st := { st with con := st.con.setList VCType.full xin yin remF.2 }
  let st :=
    if doingMerge then
      let fullsOut := st.con.getList VCType.full xout yout
      let con' := st.con.setList VCType.full xout yout (fullsOut.appendList remF.2)
      remF.2.entries.foldl (pushFullB env) { st with con := con' }
    else st
  let st := remF.1.foldl (fun s it =>
      let v := VC.shrinkFull it added xout yout
      let fo := s.con.getList VCType.full xout yout
      let r := fo.add v
      if r.1 = AddResult.addFailed then s
      else
        pushFullB env
          { s with con := s.con.setList VCType.full xout yout r.2,
                   stats := { s.stats with shrunk0 := s.stats.shrunk0 + 1 } } v)
    st
  let semisIn := st.con.getList VCType.semi xin yin
  let remS := semisIn.removeAllContaining added
  let st := { st with con := st.con.setList VCType.semi xin yin remS.2 }
  let st :=
    if doingMerge then
      let semisOut := st.con.getList VCType.semi xout yout
      let con' := st.con.setList VCType.semi xout yout (semisOut.appendList remS.2)
      { st with con := con' }
    else st
  let shrunkPair := remS.1.foldl (fun (acc : BuilderState B × Bool) it =>
      if keyInAdded it added then acc
      else
        let v := VC.shrinkSemi it added xout yout
        let so := acc.1.con.getList VCType.semi xout yout
        let r := so.add v
        if r.1 = AddResult.addFailed then acc
        else
          ({ acc.1 with con := acc.1.con.setList VCType.semi xout yout r.2,
                        stats := { acc.1.stats with
                          shrunk1 := acc.1.stats.shrunk1 + 1 } }, true))
    (st, false)
  let st := shrunkPair.1
  let st :=
    if doingMerge || shrunkPair.2 then
      let so := st.con.getList VCType.semi xout yout
      { st with semisQueue := st.semisQueue.push (so.x, so.y) }
    else st
  remS.1.foldl (upgradeStep env added xout yout) st

/-- Scratch state of `VCOrCombiner`: the shared set array `set_mem`, the
full list being extended, the `added` output vector, statistics, and a
flag recording any `ADD_FAILED` result (the source asserts this never
happens). -/
structure OrCombState (B : Nat) where
  setMem : List (Finset (Fin B))
  fullList : VCList B
  added : List (VC B)
  stats : Stats
  addFailed : Bool

/-- The fixed data of one `VCOrCombiner` run: the endpoint capture sets and
the endpoints themselves. -/
structure OrCombCtx (B : Nat) where
  xCap : Finset (Fin B)
  yCap : Finset (Fin B)
  mx : Fin B
  my : Fin B

/-- The segment `set_mem[start, start + count)`. -/
def segOf {B : Nat} (mem : List (Finset (Fin B))) (start count : Nat) :
    List (Finset (Fin B)) :=
  (mem.drop start).take count

/-- `VCOrCombiner::Intersect`: AND of a `set_mem` segment (universe when
empty). -/
def intersectSeg {B : Nat} (mem : List (Finset (Fin B))) (start count : Nat) :
    Finset (Fin B) :=
  (segOf mem start count).foldl (fun acc s => acc ∩ s) Finset.univ

/-- The union-building loop of `VCOrCombiner::Add`: skip carriers that do
not shrink the running intersection; stop once the intersection is inside
the captured set. -/
def combAddLoop {B : Nat} (cap : Finset (Fin B)) :
    List (Finset (Fin B)) → Finset (Fin B) → Finset (Fin B) → Finset (Fin B)
  | [], _, u => u
  | c :: rest, i, u =>
      if i ⊆ c then combAddLoop cap rest i u
      else
        let i' := i ∩ c
        let u' := u ∪ c
        if i' ⊆ cap then u' else combAddLoop cap rest i' u'

/-- `VCOrCombiner::Add`: build the union over a segment, then add the OR
full; per the source, the result is recorded in `added` (and the success
counter bumped) even if the list add fails, and the failure trips the
`addFailed` flag (the C++ assertion). -/
def combAdd {B : Nat} (mx my : Fin B) (st : OrCombState B)
    (start count : Nat) (cap : Finset (Fin B)) : Finset (Fin B) × OrCombState B :=
  let u := combAddLoop cap (segOf st.setMem start count) Finset.univ cap
  let v := VC.mk' mx my VCType.full u none VCRule.orR
  let r := st.fullList.add v
  let failed := r.1 = AddResult.addFailed
  let stats' := { st.stats with orAttempts := st.stats.orAttempts + 2,
                                orSuccesses := st.stats.orSuccesses + 1 }
  (u, ⟨st.setMem, r.2, st.added ++ [v], stats', st.addFailed || decide failed⟩)

/-- `VCOrCombiner::Filter`: append to `set_mem` the members of a segment
avoiding cell `a`; returns the new state and the filtered count. -/
def filterSeg {B : Nat} (st : OrCombState B) (start count : Nat) (a : Fin B) :
    OrCombState B × Nat :=
  let keep := (segOf st.setMem start count).filter (fun s => decide (a ∉ s))
  ({ st with setMem := st.setMem ++ keep }, keep.length)

/-- The `min_size` selection of `VCOrCombiner::Search`: first set of
minimal cardinality (strict improvement, as in the source). -/
def minBySize {B : Nat} (l : List (Finset (Fin B))) : Option (Finset (Fin B)) :=
  l.foldl (fun acc s =>
    match acc with
    | none => some s
    | some b => if s.card < b.card then some s else acc) none

mutual

/-- `VCOrCombiner::Search`, fuelled: guard on the total intersection, the
initial `Add` when no formed full survives the filter, then the
forbidden-cell refinement loop. -/
def combSearch {B : Nat} (ctx : OrCombCtx B) (fuel : Nat)
    (forbidden : Finset (Fin B)) (captureX captureY : Bool)
    (newS newSc oldSc filtC : Nat) (st : OrCombState B) :
    Option (OrCombState B × Nat) :=
  match fuel with
  | 0 => none
  | Nat.succ fuel' =>
    let oldS := newS + newSc
    let iNew := intersectSeg st.setMem newS newSc
    let iOld := intersectSeg st.setMem oldS oldSc
    let inter := iNew ∩ iOld
    let capSet := (if captureX then ctx.xCap else ∅)
      ∪ (if captureY then ctx.yCap else ∅)
    if ¬ inter ⊆ capSet then
      some ({ st with setMem := st.setMem.take newS }, 0)
    else
      let filtered := oldS + oldSc
      let newConn := filtered + filtC
      if filtC = 0 then
        let minCap := (if (inter ∩ ctx.xCap).Nonempty then ctx.xCap else ∅)
          ∪ (if (inter ∩ ctx.yCap).Nonempty then ctx.yCap else ∅)
        let p := combAdd ctx.mx ctx.my st newS (newSc + oldSc) minCap
        combSearchLoop ctx fuel' (forbidden ∪ iNew) captureX captureY newS newSc
          oldSc filtered newConn 1 1 { p.2 with setMem := p.2.setMem ++ [p.1] }
      else
        combSearchLoop ctx fuel' (forbidden ∪ iNew) captureX captureY newS newSc
          oldSc filtered newConn filtC 0 st
termination_by structural fuel

/-- The `while (true)` refinement loop of `VCOrCombiner::Search`: choose
the smallest allowed set among the formed fulls; when empty, copy the new
connections out and return; otherwise forbid its first cell and recurse on
the filtered ranges. -/
def combSearchLoop {B : Nat} (ctx : OrCombCtx B) (fuel : Nat)
    (forbidden : Finset (Fin B)) (captureX captureY : Bool)
    (newS newSc oldSc filtered newConn filtC ncc : Nat)
    (st : OrCombState B) : Option (OrCombState B × Nat) :=
  match fuel with
  | 0 => none
  | Nat.succ fuel' =>
    match minBySize ((segOf st.setMem filtered filtC).map (fun s => s \ forbidden)) with
    | none => some (st, ncc)
    | some allowed =>
      if allowed = ∅ then
        let outs := segOf st.setMem newConn ncc
        some ({ st with setMem := st.setMem.take newS ++ outs }, ncc)
      else
        match firstSet allowed with
        | none => some (st, ncc)
        | some a =>
          let forbidden' := insert a forbidden
          let recNewS := filtered + filtC
          let f1 := filterSeg st newS newSc a
          let f2 := filterSeg f1.1 (newS + newSc) oldSc a
          let f3 := filterSeg f2.1 filtered filtC a
          match combSearch ctx fuel' forbidden'
              (captureX && !(decide (a ∈ ctx.xCap)))
              (captureY && !(decide (a ∈ ctx.yCap)))
              recNewS f1.2 f2.2 f3.2 f3.1 with
          | none => none
          | some pr =>
            combSearchLoop ctx fuel' forbidden' captureX captureY newS newSc
              oldSc filtered newConn (filtC + pr.2) (ncc + pr.2) pr.1
termination_by structural fuel

end

/-- `VCBuilder::DoOr` via the `VCOrCombiner` constructor: load unprocessed
semi carriers, processed semi carriers and existing full carriers into
`set_mem`, then run `Search`.  Returns the updated full list, the `added`
vector, statistics, the search result, and the `addFailed` flag. -/
def combinerRun {B : Nat} (fuel : Nat) (capSets : Fin B → Finset (Fin B))
    (semiList : VCList B) (fullList : VCList B) (stats : Stats) :
    Option (VCList B × List (VC B) × Stats × Bool × Bool) :=
  let mx := semiList.x
  let my := semiList.y
  let ctx : OrCombCtx B := ⟨capSets mx, capSets my, mx, my⟩
  let newSemis := (semiList.entries.filter (fun e => !e.processed)).map
    (fun e => e.carrier)
  if newSemis = [] then some (fullList, [], stats, false, false)
  else
    let oldSemis := (semiList.entries.filter (fun e => e.processed)).map
      (fun e => e.carrier)
    let fullCs := fullList.entries.map (fun e => e.carrier)
    let st0 : OrCombState B :=
      ⟨newSemis ++ oldSemis ++ fullCs, fullList, [], stats, false⟩
    match combSearch ctx fuel ∅ true true 0 newSemis.length oldSemis.length
        fullCs.length st0 with
    | none => none
    | some pr =>
        some (pr.1.fullList, pr.1.added, pr.1.stats, decide (0 < pr.2),
          pr.1.addFailed)

/-- Update a `Nat`-indexed store at one position. -/
def fUpd {α : Type} (f : Nat → α) (i : Nat) (v : α) : Nat → α :=
  fun j => if j = i then v else f j

/-- The fixed data of one bounded `OrRule` call: the processed soft-limit
semi carriers, the suffix-intersection table `m_tail`, the decremented
depth bound, the endpoint capture sets and the list endpoints. -/
structure OrRuleCtx (B : Nat) where
  msemi : List (Finset (Fin B))
  mtail : Nat → Finset (Fin B)
  maxOrsM : Nat
  capX : Finset (Fin B)
  capY : Finset (Fin B)
  mx : Fin B
  my : Fin B

/-- The mutable data of the bounded `OrRule` enumeration: the
index/AND/OR stacks, the depth, the running success count, the full list,
the `added` vector and statistics. -/
structure OrRuleState (B : Nat) where
  index : Nat → Nat
  ands : Nat → Finset (Fin B)
  ors : Nat → Finset (Fin B)
  d : Nat
  count : Nat
  fullList : VCList B
  added : List (VC B)
  stats : Stats

/-- The `while (true)` enumeration of `VCBuilder::OrRule::operator()`,
fuelled: tail-intersection pruning, ascent when a level is exhausted, the
empty-AND and captured-AND full creations, the no-shrink skip, and the
descent when below the depth bound. -/
def orLoop {B : Nat} (ctx : OrRuleCtx B) :
    Nat → OrRuleState B → Option (OrRuleState B)
  | 0, _ => none
  | Nat.succ fuel, st =>
    let n := ctx.msemi.length
    let capSet := ctx.capX ∪ ctx.capY
    let i0 := st.index st.d
    let i := if i0 < n ∧ ((st.ands (st.d - 1) ∩ ctx.mtail i0) ∩ capSetᶜ).Nonempty
             then n else i0
    if i = n then
      if st.d = 1 then some st
      else
        let stUp := { st with d := st.d - 1,
                              index := fUpd st.index (st.d - 1) (st.index (st.d - 1) + 1) }
        orLoop ctx fuel stUp
    else
      match ctx.msemi.get? i with
      | none => some st
      | some c =>
        let andsD := st.ands (st.d - 1) ∩ c
        let orsD := st.ors (st.d - 1) ∪ c
        let st1 := { st with ands := fUpd st.ands st.d andsD,
                             ors := fUpd st.ors st.d orsD }
        if andsD = ∅ then
          let v := VC.mk' ctx.mx ctx.my VCType.full orsD none VCRule.orR
          let r := st1.fullList.add v
          let st2 :=
            if r.1 = AddResult.addFailed then
              { st1 with stats := { st1.stats with
                  orAttempts := st1.stats.orAttempts + 1 } }
            else
              { st1 with fullList := r.2,
                         count := st1.count + 1,
                         added := st1.added ++ [v],
                         stats := { st1.stats with
                           orAttempts := st1.stats.orAttempts + 1,
                           orSuccesses := st1.stats.orSuccesses + 1 } }
          orLoop ctx fuel { st2 with
            index := fUpd st2.index st2.d (st2.index st2.d + 1) }
        else if andsD ⊆ capSet then
          let carrier := orsD
            ∪ (if (andsD ∩ ctx.capX).Nonempty then ctx.capX else ∅)
            ∪ (if (andsD ∩ ctx.capY).Nonempty then ctx.capY else ∅)
          let v := VC.mk' ctx.mx ctx.my VCType.full carrier none VCRule.orR
          let r := st1.fullList.add v
          let st2 :=
            if r.1 = AddResult.addFailed then
              { st1 with stats := { st1.stats with
                  orAttempts := st1.stats.orAttempts + 1 } }
            else
              { st1 with fullList := r.2,
                         count := st1.count + 1,
                         added := st1.added ++ [v],
                         stats := { st1.stats with
                           orAttempts := st1.stats.orAttempts + 1,
                           orSuccesses := st1.stats.orSuccesses + 1 } }
          orLoop ctx fuel { st2 with
            index := fUpd st2.index st2.d (st2.index st2.d + 1) }
        else if andsD = st.ands (st.d - 1) then
          orLoop ctx fuel { st1 with
            index := fUpd st1.index st1.d (st1.index st1.d + 1) }
        else if st.d < ctx.maxOrsM then
          orLoop ctx fuel { st1 with
            index := fUpd st1.index (st.d + 1) (i + 1), d := st.d + 1 }
        else
          orLoop ctx fuel { st1 with
            index := fUpd st1.index st1.d (st1.index st1.d + 1) }

/-- `VCBuilder::OrRule::operator()(vc, semi_list, full_list, ...)`: collect
the processed soft-limit semis, build `m_tail`, and run the enumeration.
Returns the updated full list, the `added` vector, statistics and the
success count. -/
def orRule {B : Nat} (env : BuilderEnv B) (vc : VC B) (semiList : VCList B)
    (fullList : VCList B) (stats : Stats) (fuel : Nat) :
    Option (VCList B × List (VC B) × Stats × Nat) :=
  if semiList.entries = [] then some (fullList, [], stats, 0)
  else
    let msemi := ((semiList.entries.take semiList.softLimit).filter
      (fun e => e.processed)).map (fun e => e.carrier)
    if msemi = [] then some (fullList, [], stats, 0)
    else
      let mtail : Nat → Finset (Fin B) := fun i =>
        (msemi.drop i).foldl (fun acc s => acc ∩ s) Finset.univ
      let ctx : OrRuleCtx B :=
        ⟨msemi, mtail, env.param.maxOrs - 1, env.capturedSet semiList.x,
         env.capturedSet semiList.y, fullList.x, fullList.y⟩
      let st0 : OrRuleState B :=
        ⟨fun _ => 0,
         fun j => if j = 0 then vc.carrier else ∅,
         fun j => if j = 0 then vc.carrier else ∅,
         1, 0, fullList, [], stats⟩
      match orLoop ctx fuel st0 with
      | none => none
      | some stF => some (stF.fullList, stF.added, stF.stats, stF.count)

/-- One iteration of the bounded branch of `VCBuilder::ProcessSemis`: the
soft-limit entry at `idx`, if unprocessed, is run through the OR rule and
marked processed. -/
def processSemisStep {B : Nat} (env : BuilderEnv B) (fuel : Nat)
    (xc yc : Fin B) (acc : BuilderState B × List (VC B)) (idx : Nat) :
    Option (BuilderState B × List (VC B)) :=
  let st := acc.1
  let semis := st.con.getList VCType.semi xc yc
  match semis.entries.get? idx with
  | none => some acc
  | some cur =>
    if cur.processed then some acc
    else
      let stats1 := { st.stats with doOrs := st.stats.doOrs + 1 }
      let fulls := st.con.getList VCType.full xc yc
      match orRule env cur semis fulls stats1 fuel with
      | none => none
      | some r =>
        let stats2 := if 0 < r.2.2.2 then
            { r.2.2.1 with goodOrs := r.2.2.1.goodOrs + 1 }
          else r.2.2.1
        let con1 := st.con.setList VCType.full xc yc r.1
        let semis1 := { semis with
          entries := semis.entries.set idx { cur with processed := true } }
        let con2 := con1.setList VCType.semi xc yc semis1
        some ({ st with con := con2, stats := stats2 }, acc.2 ++ r.2.1)

/-- The bounded branch of `VCBuilder::ProcessSemis`: iterate the soft-limit
section. -/
def processSemisBounded {B : Nat} (env : BuilderEnv B) (fuel : Nat)
    (xc yc : Fin B) (st : BuilderState B) :
    Option (BuilderState B × List (VC B)) :=
  let limit := (st.con.getList VCType.semi xc yc).softLimit
  (List.range limit).foldlM (processSemisStep env fuel xc yc) (st, [])

/-- The tail of the bounded branch of `VCBuilder::ProcessSemis`: if no full
exists between the endpoints, one `VC_RULE_ALL` full is created by
unioning the entire semi list (greedy or plain per `use_greedy_union`)
together with the captured sets. -/
def finalizeAll {B : Nat} (env : BuilderEnv B) (xc yc : Fin B)
    (capSet : Finset (Fin B)) (acc : BuilderState B × List (VC B)) :
    BuilderState B × List (VC B) :=
  let st := acc.1
  let fulls := st.con.getList VCType.full xc yc
  if fulls.entries = [] then
    let semis := st.con.getList VCType.semi xc yc
    let carrier := if env.param.useGreedyUnion then semis.getGreedyUnion
                   else semis.getUnion
    let v := VC.mk' xc yc VCType.full (carrier ∪ capSet) none VCRule.allR
    let r := fulls.add v
    ({ st with con := st.con.setList VCType.full xc yc r.2 }, acc.2 ++ [v])
  else acc

/-- `VCBuilder::ProcessSemis(xc, yc)`: abort unchanged when the semi list's
hard intersection leaves the captured sets; otherwise run the enhanced
(`max_ors ≥ 16`) or bounded OR algorithm, synthesize the `All` full in the
bounded case when no full exists, mark semis processed, and push every
added full. -/
def processSemis {B : Nat} (env : BuilderEnv B) (fuel : Nat)
    (st : BuilderState B) (xc yc : Fin B) : Option (BuilderState B) :=
  let semis := st.con.getList VCType.semi xc yc
  let capSet := env.capturedSet xc ∪ env.capturedSet yc
  if (semis.hardIntersection ∩ capSetᶜ).Nonempty then some st
  else
    let r :=
      if 16 ≤ env.param.maxOrs then
        let stats1 := { st.stats with doOrs := st.stats.doOrs + 1 }
        let fulls := st.con.getList VCType.full xc yc
        match combinerRun fuel env.capturedSet semis fulls stats1 with
        | none => none
        | some c =>
          let stats2 := if c.2.2.2.1 then
              { c.2.2.1 with goodOrs := c.2.2.1.goodOrs + 1 }
            else c.2.2.1
          let semis1 := { semis with
            entries := semis.entries.map (fun e => { e with processed := true }) }
          let con1 := (st.con.setList VCType.full xc yc c.1).setList
            VCType.semi xc yc semis1
          some ({ st with con := con1, stats := stats2 }, c.2.1)
      else
        (processSemisBounded env fuel xc yc st).map (finalizeAll env xc yc capSet)
    match r with
    | none => none
    | some pr => some (pr.2.foldl (pushFullB env) pr.1)

/-- What the head of the `DoSearch` loop does at one iteration. -/
inductive StepTaken (B : Nat) where
  | done
  | tookFull (vc : VC B)
  | tookSemi (p : Fin B × Fin B)
deriving DecidableEq

/-- The branch structure at the head of the `VCBuilder::DoSearch` loop: a
full is popped whenever the fulls queue is non-empty; a semi pair is
popped only when the fulls queue is empty; the loop ends when both queues
are empty. -/
def doSearchStep {B : Nat} (st : BuilderState B) : StepTaken B :=
  if st.fullsQueue.isEmpty then
    if st.semisQueue.isEmpty then StepTaken.done
    else
      match st.semisQueue.front with
      | some p => StepTaken.tookSemi p
      | none => StepTaken.done
  else
    match st.fullsQueue.front with
    | some vc => StepTaken.tookFull vc
    | none => StepTaken.done

/-- The `abort_on_winning_connection` check of `DoSearch`. -/
def checkWinning {B : Nat} (env : BuilderEnv B) (st : BuilderState B) : Bool :=
  env.param.abortOnWinningConnection
    && st.con.existsConn env.edge1 env.edge2 VCType.full

/-- `VCBuilder::DoSearch`, fuelled: pop and process per `doSearchStep`,
stopping early only on a winning connection when
`abort_on_winning_connection` is set. -/
def doSearch {B : Nat} (env : BuilderEnv B) :
    Nat → BuilderState B → Option (BuilderState B)
  | 0, _ => none
  | Nat.succ fuel, st =>
    match doSearchStep st with
    | StepTaken.done => some st
    | StepTaken.tookFull vc =>
        let st1 := processFulls env { st with fullsQueue := st.fullsQueue.pop } vc
        if checkWinning env st1 then some st1 else doSearch env fuel st1
    | StepTaken.tookSemi p =>
        match processSemis env fuel { st with semisQueue := st.semisQueue.pop }
            p.1 p.2 with
        | none => none
        | some st1 =>
            if checkWinning env st1 then some st1 else doSearch env fuel st1

/-- AND of a list of bitsets (universe for the empty list). -/
def interList {B : Nat} (l : List (Finset (Fin B))) : Finset (Fin B) :=
  l.foldl (fun acc s => acc ∩ s) Finset.univ

/-- The property that a finished search left both queues empty. -/
def queuesEmptyAfter {B : Nat} (r : Option (BuilderState B)) : Prop :=
  match r with
  | none => True
  | some st => st.fullsQueue.isEmpty = true ∧ st.semisQueue.isEmpty = true

/-- The property that a finished combiner run added at least one full. -/
def combinerAddedSome {B : Nat}
    (r : Option (VCList B × List (VC B) × Stats × Bool × Bool)) : Prop :=
  match r with
  | none => True
  | some res => res.2.1 ≠ []

/-- A `VCSet` of empty lists (soft limit 10, the spec's example constant). -/
def emptyVCSet (B : Nat) : VCSet B :=
  ⟨fun i j => ⟨i, j, 10, []⟩, fun i j => ⟨i, j, 10, []⟩⟩

/-- A builder context on a 4-cell board: defaults (`max_ors = 4`, no
`and_over_edge`, greedy union, no abort), no captured sets, identity
captains, all cells empty. -/
def c2Env : BuilderEnv 4 :=
  ⟨⟨4, false, true, false⟩, fun _ => ∅, fun p => p, fun _ => HColor.empty,
   HColor.black, fun _ => false, 0, 1⟩

/-- A semi on `(0, 1)` with carrier `{2}` and key `2`, not processed. -/
def c2Semi : VC 4 := ⟨0, 1, VCType.semi, {2}, some 2, VCRule.andR, false⟩

/-- A `VCSet` whose only entry is the semi list `[c2Semi]` on `(0, 1)`. -/
def c2Set : VCSet 4 :=
  (emptyVCSet 4).setList VCType.semi 0 1 ⟨0, 1, 10, [c2Semi]⟩

/-- A semis queue holding exactly the pair `(0, 1)`. -/
def c2Queue : SemiEndsQueue 4 := ⟨fun _ _ => false, [(0, 1)], 0⟩

/-- A builder state about to process the semi pair `(0, 1)`. -/
def c2State : BuilderState 4 :=
  ⟨c2Set, FullVCQueue.clear, c2Queue, fun _ => ∅, Stats.zero⟩

/-- A builder state with empty queues and an empty `VCSet`. -/
def c2wState : BuilderState 4 :=
  ⟨emptyVCSet 4, FullVCQueue.clear, @SemiEndsQueue.clear 4, fun _ => ∅,
   Stats.zero⟩

/-- A base full on `(0, 1)` used to instantiate the queue-order theorem. -/
def c6Full : VC 4 := ⟨0, 1, VCType.full, ∅, none, VCRule.base, false⟩

/-- A builder state whose fulls queue holds one entry. -/
def c6State : BuilderState 4 :=
  ⟨emptyVCSet 4, ⟨[c6Full], 0⟩, @SemiEndsQueue.clear 4, fun _ => ∅,
   Stats.zero⟩

/-- A semi with key `1` and carrier `{1, 2}`, to be upgraded once `1` is
played. -/
def c9Semi : VC 4 := ⟨0, 1, VCType.semi, {1, 2}, some 1, VCRule.andR, false⟩

/-- Semi list on `(0, 1)`: a processed semi with carrier `{4}` followed by
an unprocessed semi with carrier `{2, 3}` (whole-list intersection
empty). -/
def c3SemiA : VCList 8 :=
  ⟨0, 1, 10, [⟨0, 1, VCType.semi, {4}, some 4, VCRule.andR, true⟩,
              ⟨0, 1, VCType.semi, {2, 3}, some 2, VCRule.andR, false⟩]⟩

/-- Full list on `(0, 1)` holding one full whose carrier `{2}` is inside
the intersection of the unprocessed semis of `c3SemiA`. -/
def c3FullA : VCList 8 := ⟨0, 1, 10, [⟨0, 1, VCType.full, {2}, none, VCRule.andR, false⟩]⟩

/-- Captured sets for the combiner assertion-failure run: `cap[8] = {3, 4}`,
`cap[9] = {4}`. -/
def c3Caps : Fin 10 → Finset (Fin 10) :=
  fun p => if p = 8 then {3, 4} else if p = 9 then {4} else ∅

/-- Semi list on `(8, 9)`: an unprocessed semi with carrier `{0, 4}` and a
processed semi with carrier `{1, 4}`; the whole-list intersection `{4}` is
inside the captured sets. -/
def c3SemiB : VCList 10 :=
  ⟨8, 9, 10, [⟨8, 9, VCType.semi, {0, 4}, some 0, VCRule.andR, false⟩,
              ⟨8, 9, VCType.semi, {1, 4}, some 1, VCRule.andR, true⟩]⟩

/-- Full list on `(8, 9)` holding one full with carrier `{3}`. -/
def c3FullB : VCList 10 := ⟨8, 9, 10, [⟨8, 9, VCType.full, {3}, none, VCRule.andR, false⟩]⟩

/-- Semi list with two disjoint semis (one unprocessed) used to witness the
amended enhanced-OR guarantee. -/
def c3SemiW : VCList 8 :=
  ⟨0, 1, 10, [⟨0, 1, VCType.semi, {2, 3}, some 2, VCRule.andR, false⟩,
              ⟨0, 1, VCType.semi, {4}, some 4, VCRule.andR, true⟩]⟩

/-- An empty full list on `(0, 1)`. -/
def c3FullW : VCList 8 := ⟨0, 1, 10, []⟩

/-- Builder context with `cap[0] = {2}`, all cells empty, defaults
otherwise. -/
def c7Env : BuilderEnv 8 :=
  ⟨⟨4, false, true, false⟩, fun p => if p = 0 then {2} else ∅, fun p => p,
   fun _ => HColor.empty, HColor.black, fun _ => false, 0, 1⟩

/-- A processed semi on `(0, 1)` with carrier `{2}` (inside `cap[0]`). -/
def c7Semi : VC 8 := ⟨0, 1, VCType.semi, {2}, some 2, VCRule.andR, true⟩

/-- A pre-existing full on `(0, 1)` with carrier `{5}`, not tagged `All`. -/
def c7Full : VC 8 := ⟨0, 1, VCType.full, {5}, none, VCRule.andR, true⟩

/-- A `VCSet` holding the processed semi and the pre-existing full on
`(0, 1)`. -/
def c7Set : VCSet 8 :=
  ((emptyVCSet 8).setList VCType.semi 0 1 ⟨0, 1, 10, [c7Semi]⟩).setList
    VCType.full 0 1 ⟨0, 1, 10, [c7Full]⟩

/-- Builder state for the `ProcessSemis` counterexample. -/
def c7State : BuilderState 8 :=
  ⟨c7Set, FullVCQueue.clear, @SemiEndsQueue.clear 8, fun _ => ∅, Stats.zero⟩

/-- Builder state with one semi list whose hard intersection escapes the
captured sets (the early-return case of `ProcessSemis`). -/
def c7wState : BuilderState 8 :=
  ⟨(emptyVCSet 8).setList VCType.semi 2 3
      ⟨2, 3, 10, [⟨2, 3, VCType.semi, {4}, some 4, VCRule.andR, false⟩]⟩,
   FullVCQueue.clear, @SemiEndsQueue.clear 8, fun _ => ∅, Stats.zero⟩

/-- Concrete board used to instantiate the captured-set theorem. -/
def c10Board : Fin 4 → HColor :=
  fun p => if p = 0 then HColor.black else HColor.empty

/-- Concrete pattern-hit function used to instantiate the captured-set
theorem. -/
def c10Hits : Fin 4 → Finset (Fin 4) := fun _ => {1}

/-- Concrete list entry used to instantiate the AND-rule theorems. -/
def c5a : VC 4 := ⟨0, 1, VCType.full, ∅, none, VCRule.base, true⟩

/-- Concrete popped full used to instantiate the AND-rule theorems. -/
def c5vc : VC 4 := ⟨1, 2, VCType.full, {3}, none, VCRule.base, true⟩

/-- Concrete list entry used to instantiate the singleton-fallback
theorem: carrier meets the popped full's carrier in two cells. -/
def c4a : VC 8 := ⟨0, 2, VCType.full, {1, 3, 4}, none, VCRule.base, true⟩

/-- Concrete popped full used to instantiate the singleton-fallback
theorem. -/
def c4vc : VC 8 := ⟨2, 5, VCType.full, {3, 4, 6}, none, VCRule.base, true⟩

/-! ### Theorems -/

/-- Claim C1, failing input.  The source's `SemiEndsQueue::Push` marks
`m_seen[a][a]` instead of `m_seen[a][b]`, so pushing the same normalized
pair `(1, 2)` twice with no intervening `Pop` inserts it twice: the pair is
present in the queue twice at once, contradicting the claimed (and the
queue's own documented) uniqueness guarantee. -/
theorem c1_semis_queue_push_duplicate :
    ((((@SemiEndsQueue.clear 8).push (1, 2)).push (1, 2)).array
        = [(1, 2), (1, 2)])
      ∧ (((@SemiEndsQueue.clear 8).push (1, 2)).push (1, 2)).head = 0 := by
  constructor
  · decide
  · rfl

/-- Claim C8: the incremental `Build` requires
`added[BLACK] ∩ added[WHITE] = ∅`; the entry assertion passes exactly when
the precondition holds, so a violating call is rejected and under the
precondition the assertion never fires. -/
theorem c8_assertion_iff_precondition {B : Nat}
    (addedBlack addedWhite : Finset (Fin B)) :
    buildIncrementalGuard addedBlack addedWhite = some ()
      ↔ addedBlack ∩ addedWhite = ∅ := by
  unfold buildIncrementalGuard
  split
  · rename_i h
    simp only [Finset.nonempty_iff_ne_empty] at h
    simp [h]
  · rename_i h
    simp only [Finset.not_nonempty_iff_eq_empty] at h
    simp [h]

/-- Claim C10: after `ComputeCapturedSets`, the captured set of every
non-empty cell (own stone, opponent stone, occupied edge) is empty; only
empty cells can carry a non-empty captured set. -/
theorem c10_captured_empty_on_occupied {B : Nat} (brdColor : Fin B → HColor)
    (matchHits : Fin B → Finset (Fin B)) (p : Fin B)
    (h : brdColor p ≠ HColor.empty) :
    computeCapturedSets brdColor matchHits p = ∅ := by
  simp [computeCapturedSets, h]

/-- Witness for the captured-set theorem at a concrete occupied cell. -/
theorem c10_captured_empty_on_occupied_witness :
    c10Board 0 ≠ HColor.empty ∧ computeCapturedSets c10Board c10Hits 0 = ∅ :=
  ⟨by decide, c10_captured_empty_on_occupied c10Board c10Hits 0 (by decide)⟩

/-- Claim C5: for two connections with disjoint carriers whose shared
endpoint (the intermediate) is `over`, a processed entry `a` with
`fto ∉ a.carrier` derives: if the intermediate is empty, a Semi with
carrier `a.carrier ∪ vc.carrier ∪ {over}` and key `over`; if occupied by
the player, a Full with carrier `a.carrier ∪ vc.carrier`. -/
theorem c5_and_rule_disjoint {B : Nat} (zfrom over fto : Fin B) (c : HColor)
    (vc a : VC B) (capSet : Finset (Fin B))
    (hp : a.processed = true) (hto : fto ∉ a.carrier)
    (hdisj : a.carrier ∩ vc.carrier = ∅) :
    (doAndEntry zfrom over fto (andRuleFor c) vc capSet a
        = (if c = HColor.empty then
             [⟨AndRule.createSemi, VC.andVCsSemi zfrom fto a vc over⟩]
           else
             [⟨AndRule.createFull, VC.andVCsFull zfrom fto a vc⟩]))
      ∧ (VC.andVCsSemi zfrom fto a vc over).vtype = VCType.semi
      ∧ (VC.andVCsSemi zfrom fto a vc over).carrier = a.carrier ∪ vc.carrier ∪ {over}
      ∧ (VC.andVCsSemi zfrom fto a vc over).key = some over
      ∧ (VC.andVCsFull zfrom fto a vc).vtype = VCType.full
      ∧ (VC.andVCsFull zfrom fto a vc).carrier = a.carrier ∪ vc.carrier := by
  refine ⟨?_, rfl, rfl, rfl, rfl, rfl⟩
  by_cases hc : c = HColor.empty <;>
    simp [doAndEntry, andRuleFor, hp, hto, hdisj, hc]

/-- Witness for the disjoint AND-rule theorem at concrete inputs (empty
intermediate): the attempt is the Semi keyed by the intermediate. -/
theorem c5_and_rule_disjoint_witness :
    doAndEntry (0 : Fin 4) 1 2 (andRuleFor HColor.empty) c5vc ∅ c5a
      = (if HColor.empty = HColor.empty then
           [⟨AndRule.createSemi, VC.andVCsSemi (0 : Fin 4) 2 c5a c5vc 1⟩]
         else
           [⟨AndRule.createFull, VC.andVCsFull (0 : Fin 4) 2 c5a c5vc⟩]) :=
  (c5_and_rule_disjoint 0 1 2 HColor.empty c5vc c5a ∅ (by decide) (by decide)
    (by decide)).1

/-- `firstSet` of a singleton bitset is its element. -/
theorem firstSet_singleton {B : Nat} (k : Fin B) :
    firstSet ({k} : Finset (Fin B)) = some k := by
  simp only [firstSet, Finset.min_singleton]
  rfl

/-- A one-cell bitset not contained in `t` is unchanged by removing `t`. -/
theorem sdiff_self_of_card_one {B : Nat} (s t : Finset (Fin B))
    (h1 : s.card = 1) (hns : ¬ s ⊆ t) : s \ t = s := by
  obtain ⟨k, rfl⟩ := Finset.card_eq_one.mp h1
  have hk : k ∉ t := fun hk => hns (Finset.singleton_subset_iff.mpr hk)
  ext a
  simp only [Finset.mem_sdiff, Finset.mem_singleton]
  constructor
  · rintro ⟨h, _⟩
    exact h
  · rintro rfl
    exact ⟨rfl, hk⟩

/-- Claim C4: in `DoAnd`, when the carrier intersection is non-empty and
not inside the combined captured set, something is emitted exactly when the
natural output would be a Full and the intersection minus the captured set
is a singleton; every emission is then a Semi keyed by that single cell; in
every other non-empty, non-captured case nothing is emitted. -/
theorem c4_singleton_fallback {B : Nat} (zfrom over fto : Fin B)
    (rule : AndRule) (vc a : VC B) (capSet : Finset (Fin B))
    (hp : a.processed = true) (hto : fto ∉ a.carrier)
    (hne : (a.carrier ∩ vc.carrier).Nonempty)
    (hcap : ¬ a.carrier ∩ vc.carrier ⊆ capSet) :
    (doAndEntry zfrom over fto rule vc capSet a ≠ [] ↔
        (rule = AndRule.createFull ∧
          ((a.carrier ∩ vc.carrier) \ capSet).card = 1))
      ∧ ∀ att ∈ doAndEntry zfrom over fto rule vc capSet a,
          att.kind = AndRule.createSemi ∧ att.vc.vtype = VCType.semi ∧
            att.vc.key = firstSet ((a.carrier ∩ vc.carrier) \ capSet) := by
  have hIne : a.carrier ∩ vc.carrier ≠ ∅ := Finset.nonempty_iff_ne_empty.mp hne
  cases rule with
  | createSemi =>
      constructor
      · simp [doAndEntry, hp, hto, hIne, hcap]
      · intro att hatt
        simp [doAndEntry, hp, hto, hIne, hcap] at hatt
  | createFull =>
      by_cases hI1 : (a.carrier ∩ vc.carrier).card = 1
      · have hJI : (a.carrier ∩ vc.carrier) \ capSet = a.carrier ∩ vc.carrier :=
          sdiff_self_of_card_one _ _ hI1 hcap
        obtain ⟨k, hk⟩ := Finset.card_eq_one.mp hI1
        have h1 : firstSet (a.carrier ∩ vc.carrier) = some k := by
          rw [hk]
          exact firstSet_singleton k
        constructor
        · simp [doAndEntry, hp, hto, hIne, hcap, hI1, hJI, h1]
        · intro att hatt
          simp [doAndEntry, hp, hto, hIne, hcap, hI1, hJI, h1] at hatt
          rcases hatt with rfl | rfl <;>
            simp [VC.andVCsSemi, VC.andVCsSemiCap, VC.mk', hJI, h1]
      · by_cases hJ1 : ((a.carrier ∩ vc.carrier) \ capSet).card = 1
        · obtain ⟨k, hk⟩ := Finset.card_eq_one.mp hJ1
          have h1 : firstSet ((a.carrier ∩ vc.carrier) \ capSet) = some k := by
            rw [hk]
            exact firstSet_singleton k
          constructor
          · simp [doAndEntry, hp, hto, hIne, hcap, hI1, hJ1, h1]
          · intro att hatt
            simp [doAndEntry, hp, hto, hIne, hcap, hI1, hJ1, h1] at hatt
            subst hatt
            simp [VC.andVCsSemiCap, VC.mk', h1]
        · constructor
          · simp [doAndEntry, hp, hto, hIne, hcap, hI1, hJ1]
          · intro att hatt
            simp [doAndEntry, hp, hto, hIne, hcap, hI1, hJ1] at hatt

/-- Witness for the singleton-fallback theorem at concrete inputs with a
two-cell intersection whose uncaptured part is the single cell `3`. -/
theorem c4_singleton_fallback_witness :
    doAndEntry (0 : Fin 8) 2 5 AndRule.createFull c4vc {4, 7} c4a ≠ [] ↔
      (AndRule.createFull = AndRule.createFull ∧
        ((c4a.carrier ∩ c4vc.carrier) \ {4, 7}).card = 1) :=
  (c4_singleton_fallback 0 2 5 AndRule.createFull c4vc c4a {4, 7} (by decide)
    (by decide) (by decide) (by decide)).1

/-- Reading back the list just stored for the same type and pair. -/
theorem VCSet.getList_setList_same {B : Nat} (s : VCSet B) (t : VCType)
    (x y : Fin B) (l : VCList B) : (s.setList t x y l).getList t x y = l := by
  cases t <;> simp [VCSet.getList, VCSet.setList]

/-- Storing a semi list does not change any full list. -/
theorem VCSet.getList_full_setList_semi {B : Nat} (s : VCSet B)
    (x y a b : Fin B) (l : VCList B) :
    (s.setList VCType.semi x y l).getList VCType.full a b
      = s.getList VCType.full a b := rfl

/-- Storing a full list does not change any semi list. -/
theorem VCSet.getList_semi_setList_full {B : Nat} (s : VCSet B)
    (x y a b : Fin B) (l : VCList B) :
    (s.setList VCType.full x y l).getList VCType.semi a b
      = s.getList VCType.semi a b := rfl

/-- `PushFull` leaves the connection set unchanged. -/
theorem pushFullB_con {B : Nat} (env : BuilderEnv B) (st : BuilderState B)
    (v : VC B) : (pushFullB env st v).con = st.con := rfl

/-- `PushFull` appends the full to the fulls queue. -/
theorem pushFullB_fulls_array {B : Nat} (env : BuilderEnv B)
    (st : BuilderState B) (v : VC B) :
    (pushFullB env st v).fullsQueue.array = st.fullsQueue.array ++ [v] := rfl

/-- `PushFull` leaves the statistics unchanged. -/
theorem pushFullB_stats {B : Nat} (env : BuilderEnv B) (st : BuilderState B)
    (v : VC B) : (pushFullB env st v).stats = st.stats := rfl

/-- Adding to an empty list never fails and yields the singleton list. -/
theorem VCList.add_of_empty {B : Nat} (l : VCList B) (v : VC B)
    (h : l.entries = []) :
    (l.add v).1 ≠ AddResult.addFailed ∧ (l.add v).2.entries = [v] := by
  constructor
  · simp only [VCList.add, h, List.any_nil, Bool.false_eq_true, if_false]
    split <;> simp
  · simp [VCList.add, h]

/-- Claim C6: at each iteration of the `DoSearch` loop, a full is popped
whenever the fulls queue is non-empty, and a semi pair is popped (with
`ProcessSemis` run on it) only when the fulls queue is empty. -/
theorem c6_fulls_drained_first {B : Nat} (st : BuilderState B) :
    (st.fullsQueue.isEmpty = false →
        doSearchStep st = (match st.fullsQueue.front with
          | some vc => StepTaken.tookFull vc
          | none => StepTaken.done))
    ∧ ∀ p, doSearchStep st = StepTaken.tookSemi p →
        st.fullsQueue.isEmpty = true ∧ st.semisQueue.front = some p := by
  constructor
  · intro h
    simp [doSearchStep, h]
  · intro p h
    cases hf : st.fullsQueue.isEmpty with
    | false =>
        exfalso
        simp only [doSearchStep, hf, Bool.false_eq_true, if_false] at h
        cases hfr : st.fullsQueue.front <;> simp [hfr] at h
    | true =>
        refine ⟨rfl, ?_⟩
        simp only [doSearchStep, hf, if_true] at h
        cases hs : st.semisQueue.isEmpty with
        | true => simp [hs] at h
        | false =>
            simp only [hs, Bool.false_eq_true, if_false] at h
            cases hfr : st.semisQueue.front with
            | none => simp [hfr] at h
            | some q =>
                simp only [hfr] at h
                cases h
                exact rfl

/-- Witness for the queue-order theorem: with one queued full, the step
pops it. -/
theorem c6_fulls_drained_first_witness :
    doSearchStep c6State = (match c6State.fullsQueue.front with
      | some vc => StepTaken.tookFull vc
      | none => StepTaken.done) :=
  (c6_fulls_drained_first c6State).1 (by decide)

/-- Claim C9: a removed semi whose key is among the added stones is
upgraded to a full with the new endpoints and carrier
`old carrier − added`; when that full is accepted by the out full list,
the supersets of its carrier are removed from the out semi list, the full
is pushed onto the fulls queue, and `upgraded` is incremented; when the
add is rejected nothing changes. -/
theorem c9_upgrade_on_key_played {B : Nat} (env : BuilderEnv B)
    (added : Finset (Fin B)) (xout yout : Fin B) (st : BuilderState B)
    (s : VC B) (k : Fin B) (hk : s.key = some k) (hin : k ∈ added) :
    (VC.upgradeSemi s added xout yout).vtype = VCType.full
    ∧ (VC.upgradeSemi s added xout yout).carrier = s.carrier \ added
    ∧ (VC.upgradeSemi s added xout yout).x = min xout yout
    ∧ (VC.upgradeSemi s added xout yout).y = max xout yout
    ∧ (((st.con.getList VCType.full xout yout).add
          (VC.upgradeSemi s added xout yout)).1 ≠ AddResult.addFailed →
        (upgradeStep env added xout yout st s).fullsQueue.array
            = st.fullsQueue.array ++ [VC.upgradeSemi s added xout yout]
          ∧ (upgradeStep env added xout yout st s).stats.upgraded
            = st.stats.upgraded + 1
          ∧ (upgradeStep env added xout yout st s).con.getList VCType.semi xout yout
            = (st.con.getList VCType.semi xout yout).removeSuperSetsOf
                (VC.upgradeSemi s added xout yout).carrier
          ∧ (upgradeStep env added xout yout st s).con.getList VCType.full xout yout
            = ((st.con.getList VCType.full xout yout).add
                (VC.upgradeSemi s added xout yout)).2)
    ∧ (((st.con.getList VCType.full xout yout).add
          (VC.upgradeSemi s added xout yout)).1 = AddResult.addFailed →
        upgradeStep env added xout yout st s = st) := by
  have hkey : keyInAdded s added = true := by simp [keyInAdded, hk, hin]
  refine ⟨rfl, rfl, rfl, rfl, ?_, ?_⟩
  · intro hs
    unfold upgradeStep
    rw [if_pos hkey]
    simp only []
    rw [if_neg hs]
    refine ⟨rfl, rfl, ?_, ?_⟩
    · rw [pushFullB_con]
      rw [VCSet.getList_setList_same, VCSet.getList_semi_setList_full]
    · rw [pushFullB_con]
      rw [VCSet.getList_full_setList_semi, VCSet.getList_setList_same]
  · intro hfail
    unfold upgradeStep
    rw [if_pos hkey]
    simp only []
    rw [if_pos hfail]

/-- Witness for the upgrade theorem: on an empty out list the upgraded
full is accepted and the `upgraded` counter is bumped. -/
theorem c9_upgrade_on_key_played_witness :
    (upgradeStep c2Env {1} 2 3 c2wState c9Semi).stats.upgraded
      = c2wState.stats.upgraded + 1 :=
  ((c9_upgrade_on_key_played c2Env {1} 2 3 c2wState c9Semi 1 rfl
      (by decide)).2.2.2.2.1 (by decide)).2.1

/-- When the step reports `done`, both queues are empty. -/
theorem doSearchStep_done {B : Nat} (st : BuilderState B)
    (h : doSearchStep st = StepTaken.done) :
    st.fullsQueue.isEmpty = true ∧ st.semisQueue.isEmpty = true := by
  cases hf : st.fullsQueue.isEmpty with
  | false =>
      exfalso
      simp only [doSearchStep, hf, Bool.false_eq_true, if_false] at h
      cases hfr : st.fullsQueue.front with
      | none =>
          have hfr' : st.fullsQueue.array.get? st.fullsQueue.head = none := hfr
          have hle : st.fullsQueue.array.length ≤ st.fullsQueue.head :=
            List.get?_eq_none.mp hfr'
          have htrue : st.fullsQueue.isEmpty = true := by
            simp [FullVCQueue.isEmpty, hle]
          rw [htrue] at hf
          cases hf
      | some vc => simp [hfr] at h
  | true =>
      refine ⟨rfl, ?_⟩
      simp only [doSearchStep, hf, if_true] at h
      cases hs : st.semisQueue.isEmpty with
      | true => rfl
      | false =>
          exfalso
          simp only [hs, Bool.false_eq_true, if_false] at h
          cases hfr : st.semisQueue.front with
          | none =>
              have hfr' : st.semisQueue.array.get? st.semisQueue.head = none := hfr
              have hle : st.semisQueue.array.length ≤ st.semisQueue.head :=
                List.get?_eq_none.mp hfr'
              have htrue : st.semisQueue.isEmpty = true := by
                simp [SemiEndsQueue.isEmpty, hle]
              rw [htrue] at hs
              cases hs
          | some q => simp [hfr] at h

/-- With `abort_on_winning_connection = false` the abort check is never
taken. -/
theorem checkWinning_of_no_abort {B : Nat} (env : BuilderEnv B)
    (habort : env.param.abortOnWinningConnection = false)
    (st : BuilderState B) : checkWinning env st = false := by
  simp [checkWinning, habort]

/-- Claim C2, amended part: whenever `DoSearch` terminates with
`abort_on_winning_connection = false`, both work queues are empty. -/
theorem c2_amended_queues_empty {B : Nat} (env : BuilderEnv B) (fuel : Nat)
    (habort : env.param.abortOnWinningConnection = false) :
    ∀ st : BuilderState B, queuesEmptyAfter (doSearch env fuel st) := by
  induction fuel with
  | zero =>
      intro st
      simp [doSearch, queuesEmptyAfter]
  | succ n ih =>
      intro st
      cases hstep : doSearchStep st with
      | done =>
          simp only [doSearch, hstep, queuesEmptyAfter]
          exact doSearchStep_done st hstep
      | tookFull vc =>
          simp only [doSearch, hstep, checkWinning_of_no_abort env habort,
            Bool.false_eq_true, if_false]
          exact ih _
      | tookSemi p =>
          simp only [doSearch, hstep, checkWinning_of_no_abort env habort,
            Bool.false_eq_true, if_false]
          cases hps : processSemis env n
              { st with semisQueue := st.semisQueue.pop } p.1 p.2 with
          | none => simp [hps, queuesEmptyAfter]
          | some st1 =>
              simp only [hps]
              exact ih _

/-- Witness for the amended termination theorem at a concrete state with
empty queues. -/
theorem c2_amended_queues_empty_witness :
    queuesEmptyAfter (doSearch c2Env 1 c2wState) :=
  c2_amended_queues_empty c2Env 1 (by decide) c2wState

/-- Claim C2, counterexample: a run of `DoSearch` with
`abort_on_winning_connection = false` that terminates (both queues empty)
while the semi on `(0, 1)` still has `processed = false` — `ProcessSemis`
returns early because the semi list's hard intersection is not covered by
the captured sets, so the claim that every stored VC ends processed is
false. -/
theorem c2_counterexample_unprocessed_semi :
    c2Env.param.abortOnWinningConnection = false
    ∧ (doSearch c2Env 3 c2State).map (fun s =>
        (s.con.getList VCType.semi 0 1).entries.map (fun e => e.processed))
      = some [false]
    ∧ (doSearch c2Env 3 c2State).map (fun s =>
        s.fullsQueue.isEmpty && s.semisQueue.isEmpty) = some true := by
  refine ⟨rfl, ?_, ?_⟩ <;> decide

/-- Folding intersections from any start equals the start intersected with
the fold from the universe. -/
theorem foldl_inter_from {B : Nat} (l : List (Finset (Fin B))) :
    ∀ init : Finset (Fin B),
      l.foldl (fun acc s => acc ∩ s) init = init ∩ interList l := by
  induction l with
  | nil =>
      intro init
      simp [interList]
  | cons c t ih =>
      intro init
      have hLHS : (c :: t).foldl (fun acc s => acc ∩ s) init
          = (init ∩ c) ∩ interList t := by
        simp only [List.foldl_cons]
        exact ih (init ∩ c)
      have hRHS : interList (c :: t) = (Finset.univ ∩ c) ∩ interList t := by
        simp only [interList, List.foldl_cons]
        exact ih (Finset.univ ∩ c)
      rw [hLHS, hRHS, Finset.univ_inter, Finset.inter_assoc]

/-- `interList` over a cons. -/
theorem interList_cons {B : Nat} (c : Finset (Fin B)) (l : List (Finset (Fin B))) :
    interList (c :: l) = c ∩ interList l := by
  have hRHS : interList (c :: l) = (Finset.univ ∩ c) ∩ interList l := by
    simp only [interList, List.foldl_cons]
    exact foldl_inter_from l (Finset.univ ∩ c)
  rw [hRHS, Finset.univ_inter]

/-- Splitting a carrier intersection by the processed flag: the AND of the
unprocessed carriers intersected with the AND of the processed carriers is
the AND of all carriers. -/
theorem interList_partition_processed {B : Nat} (l : List (VC B)) :
    interList ((l.filter (fun e => !e.processed)).map (fun e => e.carrier))
      ∩ interList ((l.filter (fun e => e.processed)).map (fun e => e.carrier))
    = interList (l.map (fun e => e.carrier)) := by
  induction l with
  | nil => simp [interList]
  | cons e t ih =>
      cases he : e.processed with
      | true =>
          simp only [List.filter_cons, he, Bool.not_true, Bool.false_eq_true,
            if_false, if_true, List.map_cons, interList_cons]
          rw [← ih, Finset.inter_left_comm]
      | false =>
          simp only [List.filter_cons, he, Bool.not_false, Bool.false_eq_true,
            if_false, if_true, List.map_cons, interList_cons]
          rw [← ih, Finset.inter_assoc]

/-- `hardIntersection` is the AND of the carriers of the entries. -/
theorem hardIntersection_eq_interList {B : Nat} (l : VCList B) :
    l.hardIntersection = interList (l.entries.map (fun e => e.carrier)) := by
  simp only [VCList.hardIntersection, interList, List.foldl_map]

/-- `Filter` only touches `set_mem`. -/
theorem filterSeg_added {B : Nat} (st : OrCombState B) (s c : Nat) (a : Fin B) :
    (filterSeg st s c a).1.added = st.added := rfl

/-- `Add` appends exactly one connection to the `added` vector. -/
theorem combAdd_added {B : Nat} (mx my : Fin B) (st : OrCombState B)
    (s c : Nat) (cap : Finset (Fin B)) :
    (combAdd mx my st s c cap).2.added
      = st.added ++ [VC.mk' mx my VCType.full
          (combAddLoop cap (segOf st.setMem s c) Finset.univ cap) none
          VCRule.orR] := rfl

/-- Throughout `Search` and its refinement loop, the `added` vector never
becomes empty once non-empty. -/
theorem comb_added_preserved {B : Nat} (ctx : OrCombCtx B) :
    ∀ fuel : Nat,
    (∀ forbidden cx cy ns nsc osc fc (st : OrCombState B) pr,
        combSearch ctx fuel forbidden cx cy ns nsc osc fc st = some pr →
        st.added ≠ [] → pr.1.added ≠ [])
    ∧ (∀ forbidden cx cy ns nsc osc filtered newConn fc ncc
          (st : OrCombState B) pr,
        combSearchLoop ctx fuel forbidden cx cy ns nsc osc filtered newConn
            fc ncc st = some pr →
        st.added ≠ [] → pr.1.added ≠ []) := by
  intro fuel
  induction fuel with
  | zero =>
      constructor
      · intro forbidden cx cy ns nsc osc fc st pr h hne
        rw [combSearch] at h
        exact Option.noConfusion h
      · intro forbidden cx cy ns nsc osc filtered newConn fc ncc st pr h hne
        rw [combSearchLoop] at h
        exact Option.noConfusion h
  | succ n ih =>
      constructor
      · intro forbidden cx cy ns nsc osc fc st pr h hne
        rw [combSearch] at h
        by_cases hg : (intersectSeg st.setMem ns nsc
              ∩ intersectSeg st.setMem (ns + nsc) osc)
            ⊆ ((if cx then ctx.xCap else ∅) ∪ (if cy then ctx.yCap else ∅))
        · rw [if_neg (not_not_intro hg)] at h
          by_cases h0 : fc = 0
          · rw [if_pos h0] at h
            refine ih.2 _ _ _ _ _ _ _ _ _ _ _ _ h ?_
            simp [combAdd]
          · rw [if_neg h0] at h
            exact ih.2 _ _ _ _ _ _ _ _ _ _ _ _ h hne
        · rw [if_pos hg] at h
          simp only [Option.some.injEq] at h
          subst h
          simpa using hne
      · intro forbidden cx cy ns nsc osc filtered newConn fc ncc st pr h hne
        rw [combSearchLoop] at h
        split at h
        · cases h
          simpa using hne
        · split at h
          · cases h
            simpa using hne
          · split at h
            · cases h
              simpa using hne
            · dsimp only [] at h
              split at h
              · exact Option.noConfusion h
              · rename_i pr' hcs
                refine ih.2 _ _ _ _ _ _ _ _ _ _ _ _ h ?_
                refine ih.1 _ _ _ _ _ _ _ _ _ hcs ?_
                simpa [filterSeg_added] using hne

/-- When called with both capture flags, no formed fulls, and a total
intersection inside the union of the capture sets, a finished `Search`
leaves a non-empty `added` vector (the first `Add` fires before the
refinement loop). -/
theorem combSearch_adds_on_empty_fulls {B : Nat} (ctx : OrCombCtx B)
    (fuel : Nat) (forbidden : Finset (Fin B)) (st : OrCombState B)
    (nsc osc : Nat) (pr : OrCombState B × Nat)
    (h : combSearch ctx fuel forbidden true true 0 nsc osc 0 st = some pr)
    (hsub : intersectSeg st.setMem 0 nsc ∩ intersectSeg st.setMem (0 + nsc) osc
        ⊆ ctx.xCap ∪ ctx.yCap) :
    pr.1.added ≠ [] := by
  cases fuel with
  | zero =>
      rw [combSearch] at h
      exact Option.noConfusion h
  | succ n =>
      rw [combSearch] at h
      have hg : (intersectSeg st.setMem 0 nsc
            ∩ intersectSeg st.setMem (0 + nsc) osc)
          ⊆ ((if true then ctx.xCap else ∅) ∪ (if true then ctx.yCap else ∅)) := by
        simpa using hsub
      rw [if_neg (not_not_intro hg)] at h
      rw [if_pos rfl] at h
      exact (comb_added_preserved ctx n).2 _ _ _ _ _ _ _ _ _ _ _ _ h
        (by simp [combAdd])

/-- Claim C3, amended: when the semi list holds at least one unprocessed
semi, the whole-list intersection is inside `cap[x] ∪ cap[y]`, and the
full list on `(x, y)` is empty before the call, a finished enhanced-OR
combiner run adds at least one Full on `(x, y)`. -/
theorem c3_amended_enhanced_or_adds {B : Nat} (fuel : Nat)
    (capSets : Fin B → Finset (Fin B)) (semiList fullList : VCList B)
    (stats : Stats) (hfull : fullList.entries = [])
    (hunp : ∃ e ∈ semiList.entries, e.processed = false)
    (hint : semiList.hardIntersection
        ⊆ capSets semiList.x ∪ capSets semiList.y) :
    combinerAddedSome (combinerRun fuel capSets semiList fullList stats) := by
  have hnew : ((semiList.entries.filter (fun e => !e.processed)).map
      (fun e => e.carrier)) ≠ [] := by
    obtain ⟨e, he, hp⟩ := hunp
    intro hcon
    rw [List.map_eq_nil_iff] at hcon
    have := List.filter_eq_nil_iff.mp hcon e he
    simp [hp] at this
  unfold combinerRun
  rw [if_neg hnew]
  dsimp only []
  split
  · simp [combinerAddedSome]
  · rename_i pr hcs
    simp only [hfull, List.map_nil, List.length_nil, List.append_nil] at hcs
    have hseg1 : segOf
        (((semiList.entries.filter (fun e => !e.processed)).map (fun e => e.carrier))
          ++ ((semiList.entries.filter (fun e => e.processed)).map (fun e => e.carrier)))
        0
        ((semiList.entries.filter (fun e => !e.processed)).map (fun e => e.carrier)).length
        = (semiList.entries.filter (fun e => !e.processed)).map (fun e => e.carrier) := by
      simp [segOf, List.take_left]
    have hseg2 : segOf
        (((semiList.entries.filter (fun e => !e.processed)).map (fun e => e.carrier))
          ++ ((semiList.entries.filter (fun e => e.processed)).map (fun e => e.carrier)))
        (0 + ((semiList.entries.filter (fun e => !e.processed)).map (fun e => e.carrier)).length)
        ((semiList.entries.filter (fun e => e.processed)).map (fun e => e.carrier)).length
        = (semiList.entries.filter (fun e => e.processed)).map (fun e => e.carrier) := by
      simp [segOf, List.drop_left, List.take_length]
    refine combSearch_adds_on_empty_fulls _ fuel ∅ _ _ _ pr hcs ?_
    simp only [intersectSeg, hseg1, hseg2]
    show interList _ ∩ interList _ ⊆ _
    rw [interList_partition_processed, ← hardIntersection_eq_interList]
    exact hint

/-- Witness for the amended enhanced-OR theorem: two disjoint semis and an
empty full list yield at least one added Full. -/
theorem c3_amended_enhanced_or_adds_witness :
    combinerAddedSome (combinerRun 6 (fun _ => ∅) c3SemiW c3FullW Stats.zero) :=
  c3_amended_enhanced_or_adds 6 (fun _ => ∅) c3SemiW c3FullW Stats.zero rfl
    (by decide) (by decide)

/-- Claim C3, counterexample: first run — semi list with an unprocessed
semi and empty whole-list intersection, but a pre-existing full whose
carrier lies inside the intersection of the unprocessed semis: the
combiner adds nothing.  Second run — captured-set interplay makes the
combiner attempt a Full that is rejected as dominated (the `addFailed`
flag, the source's `Enhanced OR should always succeed!` assertion). -/
theorem c3_counterexample_enhanced_or :
    (c3SemiA.entries.any (fun e => !e.processed)) = true
    ∧ c3SemiA.hardIntersection = ∅
    ∧ (combinerRun 6 (fun _ => ∅) c3SemiA c3FullA Stats.zero).map
        (fun r => r.2.1) = some []
    ∧ (c3SemiB.entries.any (fun e => !e.processed)) = true
    ∧ c3SemiB.hardIntersection ⊆ c3Caps 8 ∪ c3Caps 9
    ∧ (combinerRun 8 c3Caps c3SemiB c3FullB Stats.zero).map
        (fun r => r.2.2.2.2) = some true := by
  refine ⟨by decide, by decide, by decide, by decide, by decide, by decide⟩

/-- Pushing a batch of fulls onto the queue never changes the connection
set. -/
theorem foldl_pushFullB_con {B : Nat} (env : BuilderEnv B) (l : List (VC B)) :
    ∀ st : BuilderState B, (l.foldl (pushFullB env) st).con = st.con := by
  induction l with
  | nil =>
      intro st
      rfl
  | cons v t ih =>
      intro st
      rw [List.foldl_cons, ih, pushFullB_con]

/-- After `finalizeAll`, the full list between the endpoints is never
empty. -/
theorem finalizeAll_nonempty {B : Nat} (env : BuilderEnv B) (xc yc : Fin B)
    (capSet : Finset (Fin B)) (acc : BuilderState B × List (VC B)) :
    ((finalizeAll env xc yc capSet acc).1.con.getList VCType.full xc yc).entries
      ≠ [] := by
  unfold finalizeAll
  by_cases hE : (acc.1.con.getList VCType.full xc yc).entries = []
  · rw [if_pos hE]
    dsimp only []
    rw [VCSet.getList_setList_same]
    rw [(VCList.add_of_empty _ _ hE).2]
    simp
  · rw [if_neg hE]
    exact hE

/-- Claim C7, amended: (1) `ProcessSemis` returns with the state unchanged
whenever the semi list's hard intersection escapes
`cap[x] ∪ cap[y]`; (2) otherwise, in bounded-OR mode, whenever it returns
the full list on `(x, y)` is non-empty; (3) when the full list is empty
after the OR pass, the synthesized connection is the single `All` full
whose carrier is the (greedy or plain) union of the semi list together
with the captured sets. -/
theorem c7_amended_process_semis {B : Nat} (env : BuilderEnv B) (fuel : Nat)
    (st : BuilderState B) (xc yc : Fin B) :
    ((((st.con.getList VCType.semi xc yc).hardIntersection
          ∩ (env.capturedSet xc ∪ env.capturedSet yc)ᶜ).Nonempty →
        processSemis env fuel st xc yc = some st))
    ∧ (env.param.maxOrs < 16 →
        ¬ (((st.con.getList VCType.semi xc yc).hardIntersection
            ∩ (env.capturedSet xc ∪ env.capturedSet yc)ᶜ).Nonempty) →
        ∀ st', processSemis env fuel st xc yc = some st' →
          ((st'.con.getList VCType.full xc yc).entries ≠ []))
    ∧ (∀ acc : BuilderState B × List (VC B),
        (acc.1.con.getList VCType.full xc yc).entries = [] →
        ((finalizeAll env xc yc (env.capturedSet xc ∪ env.capturedSet yc)
            acc).1.con.getList VCType.full xc yc).entries
          = [VC.mk' xc yc VCType.full
              ((if env.param.useGreedyUnion then
                  (acc.1.con.getList VCType.semi xc yc).getGreedyUnion
                else (acc.1.con.getList VCType.semi xc yc).getUnion)
                ∪ (env.capturedSet xc ∪ env.capturedSet yc)) none
              VCRule.allR]) := by
  refine ⟨?_, ?_, ?_⟩
  · intro hne
    unfold processSemis
    rw [if_pos hne]
  · intro hmax hne st' h
    unfold processSemis at h
    rw [if_neg hne] at h
    rw [if_neg (Nat.not_le.mpr hmax)] at h
    rcases hb : processSemisBounded env fuel xc yc st with _ | acc
    · rw [hb] at h
      simp at h
    · rw [hb] at h
      simp only [Option.map_some', Option.some.injEq] at h
      subst h
      rw [foldl_pushFullB_con]
      exact finalizeAll_nonempty env xc yc _ acc
  · intro acc hE
    unfold finalizeAll
    rw [if_pos hE]
    dsimp only []
    rw [VCSet.getList_setList_same]
    exact (VCList.add_of_empty _ _ hE).2

/-- Witness for the amended `ProcessSemis` theorem: a semi list whose hard
intersection escapes the captured sets is returned unchanged. -/
theorem c7_amended_process_semis_witness :
    processSemis c7Env 1 c7wState 2 3 = some c7wState :=
  (c7_amended_process_semis c7Env 1 c7wState 2 3).1 (by decide)

/-- Claim C7, counterexample: bounded mode, hard intersection covered by
the captured sets, the OR pass over the (entirely processed) soft prefix
produces no Full — yet no `All` full is synthesized, because a full
already exists on `(0, 1)`; the full list keeps only the pre-existing
`AND`-rule full and nothing is queued. -/
theorem c7_counterexample_no_all_full :
    c7Env.param.maxOrs = 4
    ∧ ((c7State.con.getList VCType.semi 0 1).hardIntersection
        ∩ (c7Env.capturedSet 0 ∪ c7Env.capturedSet 1)ᶜ) = ∅
    ∧ (processSemis c7Env 5 c7State 0 1).map (fun s =>
        (s.con.getList VCType.full 0 1).entries.map (fun e => e.rule))
      = some [VCRule.andR]
    ∧ (processSemis c7Env 5 c7State 0 1).map (fun s =>
        s.fullsQueue.array.length) = some 0 := by
  refine ⟨rfl, by decide, by decide, by decide⟩

end VCEngine
